import Mathlib

/-!
Verification of the block-segmentation and structural-classification pipeline
implemented in `final.py` of the Adobe_round_1A repository.

The Python functions are shallowly embedded as Lean definitions:

* Python strings are modelled as `List Char` (`PyStr`); `str.strip()` is
  `pstrip`, built from `Char.isWhitespace` exactly like Python's default strip.
* Python floats (font sizes, coordinates, the PyMuPDF geometry) are modelled as
  exact rationals `ℚ`; the arithmetic in the source (`np.mean`, `+ 1.5`,
  `height * margin`) is translated literally over `ℚ`.
* Python dicts holding the span/block records become structures with the same
  field names; the id-based header/footer sets of `main` become value-level
  predicates, which agree with the source because each block is classified
  from its own field values only.
* Python's stable `sort` is modelled by Mathlib's stable `List.insertionSort`
  with the same comparison key; both compute the unique stable sort of the
  sequence with respect to that key.
* The external collaborators (PyMuPDF page access and the `crop_and_ocr`
  pytesseract call) are out of scope per the specification; OCR is passed in
  as an oracle `ocr : ℕ → BBox → PyStr` mapping a page index and bounding box
  to recognized text, mirroring the `crop_and_ocr(page, bbox)` contract.
-/

namespace PDF

/-- Python string, modelled as its list of characters. -/
abbrev PyStr := List Char

/-- Model of Python's `str.strip()`: drop whitespace from both ends. -/
def pstrip (s : PyStr) : PyStr :=
  ((s.dropWhile Char.isWhitespace).reverse.dropWhile Char.isWhitespace).reverse

/-- Model of Python's `str.lower()`, applied characterwise. -/
def plower (s : PyStr) : PyStr := s.map Char.toLower

/-- Bounding box `(x0, y0, x1, y1)` in page coordinates. -/
structure BBox where
  x0 : ℚ
  y0 : ℚ
  x1 : ℚ
  y1 : ℚ
  deriving DecidableEq

/-- Block record built by `parse_pdf` (`final.py` lines 129-157): a merged
span together with its page index and the page's dimensions. -/
structure Block where
  text : PyStr
  font : String
  size : ℚ
  flags : ℕ
  bbox : BBox
  page : ℕ
  page_height : ℚ
  page_width : ℚ
  deriving DecidableEq

/-- Embedding of `merge_bboxes` (`final.py` lines 11-16): coordinate-wise
min/max over a non-empty list of boxes.  Python raises on an empty list;
the `[]` case returns a junk box and is never reached by the pipeline. -/
def merge_bboxes : List BBox → BBox
  | [] => ⟨0, 0, 0, 0⟩
  | b :: bs =>
      ⟨(bs.map BBox.x0).foldl min b.x0,
       (bs.map BBox.y0).foldl min b.y0,
       (bs.map BBox.x1).foldl max b.x1,
       (bs.map BBox.y1).foldl max b.y1⟩

/-- Embedding of `bbox_intersect` (`final.py` lines 18-21). -/
def bbox_intersect (b1 b2 : BBox) : Bool :=
  !(decide (b1.x1 < b2.x0) || decide (b2.x1 < b1.x0) ||
    decide (b1.y1 < b2.y0) || decide (b2.y1 < b1.y0))

/-- Specification-side predicate: `b1` lies strictly outside `b2` along the
x-axis (entirely to its left or entirely to its right). -/
def strictly_outside_x (b1 b2 : BBox) : Prop :=
  b1.x1 < b2.x0 ∨ b2.x1 < b1.x0

/-- Specification-side predicate: `b1` lies strictly outside `b2` along the
y-axis (entirely above or entirely below). -/
def strictly_outside_y (b1 b2 : BBox) : Prop :=
  b1.y1 < b2.y0 ∨ b2.y1 < b1.y0

/-- Embedding of `bbox_in_any` (`final.py` lines 39-43): the loop returns
true as soon as some box of the list intersects `bbox`. -/
def bbox_in_any (bbox : BBox) (bbox_list : List BBox) : Bool :=
  bbox_list.any (fun b => bbox_intersect bbox b)

/-- Model of the `tables_bbox` dict produced by `get_tables_bboxes`: an
association list from page numbers to table bounding boxes, with
`lookupPage` modelling Python's `tables_bbox[page_num]` access. -/
def lookupPage (tables : List (ℕ × List BBox)) (p : ℕ) : Option (List BBox) :=
  (tables.find? (fun q => q.1 == p)).map (·.2)

/-- Embedding of `block_in_tables` (`final.py` lines 78-81): `False` when the
page is not a key of the dict, otherwise `bbox_in_any` over its boxes. -/
def block_in_tables (page_num : ℕ) (bbox : BBox) (tables : List (ℕ × List BBox)) : Bool :=
  match lookupPage tables page_num with
  | some bbox_list => bbox_in_any bbox bbox_list
  | none => false

/-- Embedding of the header branch of `remove_headers_footers`
(`final.py` lines 72-73): the block's bottom edge lies in the top margin
band, boundary inclusive. -/
def is_header (margin : ℚ) (b : Block) : Bool :=
  decide (b.bbox.y1 ≤ b.page_height * margin)

/-- Embedding of the footer branch of `remove_headers_footers`
(`final.py` lines 74-75): the `elif` runs only when the header test failed,
and then checks that the top edge lies in the bottom margin band. -/
def is_footer (margin : ℚ) (b : Block) : Bool :=
  !is_header margin b && decide (b.bbox.y0 ≥ b.page_height * (1 - margin))

/-- Key whose equality drives the accumulate-or-flush merge of
`merge_consecutive_blocks` (`final.py` lines 51-54). -/
def blockKey (b : Block) : ℕ × String × ℚ × ℕ :=
  (b.page, b.font, b.size, b.flags)

/-- Merge step of `merge_consecutive_blocks` (`final.py` lines 55-56):
texts joined with a single space, boxes merged. -/
def mergeTwo (current b : Block) : Block :=
  { current with
    text := current.text ++ ' ' :: b.text
    bbox := merge_bboxes [current.bbox, b.bbox] }

/-- Loop of `merge_consecutive_blocks` (`final.py` lines 50-60) with the
running accumulator `current` made explicit. -/
def mergeBlocksLoop (current : Block) : List Block → List Block
  | [] => [current]
  | b :: rest =>
      if blockKey b = blockKey current then
        mergeBlocksLoop (mergeTwo current b) rest
      else
        current :: mergeBlocksLoop b rest

/-- Embedding of `merge_consecutive_blocks` (`final.py` lines 45-61). -/
def merge_consecutive_blocks : List Block → List Block
  | [] => []
  | b :: rest => mergeBlocksLoop b rest

/-- Raw text span of one line, as delivered by `page.get_text("dict")`
(`final.py` lines 107-114). -/
structure Span where
  text : PyStr
  font : String
  size : ℚ
  flags : ℕ
  bbox : BBox
  deriving DecidableEq

/-- Accumulator `current` of the span-merging loop in `parse_pdf`
(`final.py` lines 115-126): stripped text so far plus the list of merged
boxes. -/
structure RunAcc where
  text : PyStr
  font : String
  size : ℚ
  flags : ℕ
  bboxes : List BBox
  deriving DecidableEq

/-- Flush of the accumulator into a block record (`final.py` lines 128-138
and 146-157). -/
def flushAcc (page_num : ℕ) (height width : ℚ) (a : RunAcc) : Block :=
  { text := a.text, font := a.font, size := a.size, flags := a.flags
    bbox := merge_bboxes a.bboxes, page := page_num
    page_height := height, page_width := width }

/-- Loop over one line's spans in `parse_pdf` (`final.py` lines 104-157):
drop spans whose stripped text is empty, accumulate while the style
`(font, size, flags)` matches, flush on mismatch and at the end. -/
def mergeSpansLoop (page_num : ℕ) (height width : ℚ) (current : Option RunAcc) :
    List Span → List Block
  | [] =>
      match current with
      | none => []
      | some a => [flushAcc page_num height width a]
  | s :: rest =>
      let t := pstrip s.text
      if t = [] then
        mergeSpansLoop page_num height width current rest
      else
        match current with
        | none =>
            mergeSpansLoop page_num height width
              (some ⟨t, s.font, s.size, s.flags, [s.bbox]⟩) rest
        | some a =>
            if s.font = a.font ∧ s.size = a.size ∧ s.flags = a.flags then
              mergeSpansLoop page_num height width
                (some ⟨a.text ++ ' ' :: t, a.font, a.size, a.flags,
                       a.bboxes ++ [s.bbox]⟩) rest
            else
              flushAcc page_num height width a ::
                mergeSpansLoop page_num height width
                  (some ⟨t, s.font, s.size, s.flags, [s.bbox]⟩) rest

/-- Run merger for one line: the span loop started with an empty
accumulator. -/
def mergeLineSpans (page_num : ℕ) (height width : ℚ) (spans : List Span) :
    List Block :=
  mergeSpansLoop page_num height width none spans

/-- Lexicographic comparison combinator: compare by `f` first, on ties fall
through to `r`.  Used to model Python's tuple sort keys. -/
def lexCons {γ α : Type} [LinearOrder α] (f : γ → α) (r : γ → γ → Prop)
    (x y : γ) : Prop :=
  f x < f y ∨ (f x = f y ∧ r x y)

/-- Descending variant of `lexCons`: larger `f` ranks first.  Models a
negated numeric component of a Python sort key. -/
def lexConsDesc {γ α : Type} [LinearOrder α] (f : γ → α) (r : γ → γ → Prop)
    (x y : γ) : Prop :=
  f y < f x ∨ (f x = f y ∧ r x y)

/-- Base case for lexicographic keys: compare by `g` alone. -/
def leOn {γ β : Type} [LinearOrder β] (g : γ → β) (x y : γ) : Prop :=
  g x ≤ g y

instance {γ α : Type} [LinearOrder α] (f : γ → α) (r : γ → γ → Prop)
    [DecidableRel r] : DecidableRel (lexCons f r) := fun x y => by
  unfold lexCons; infer_instance

instance {γ α : Type} [LinearOrder α] (f : γ → α) (r : γ → γ → Prop)
    [DecidableRel r] : DecidableRel (lexConsDesc f r) := fun x y => by
  unfold lexConsDesc; infer_instance

instance {γ β : Type} [LinearOrder β] (g : γ → β) : DecidableRel (leOn g) :=
  fun x y => by unfold leOn; infer_instance

theorem leOn_total {γ β : Type} [LinearOrder β] (g : γ → β) (x y : γ) :
    leOn g x y ∨ leOn g y x := le_total (g x) (g y)

theorem leOn_trans {γ β : Type} [LinearOrder β] (g : γ → β) {x y z : γ}
    (h1 : leOn g x y) (h2 : leOn g y z) : leOn g x z := le_trans h1 h2

theorem lexCons_total {γ α : Type} [LinearOrder α] (f : γ → α)
    (r : γ → γ → Prop) (hr : ∀ x y, r x y ∨ r y x) (x y : γ) :
    lexCons f r x y ∨ lexCons f r y x := by
  rcases lt_trichotomy (f x) (f y) with h | h | h
  · exact Or.inl (Or.inl h)
  · rcases hr x y with hx | hy
    · exact Or.inl (Or.inr ⟨h, hx⟩)
    · exact Or.inr (Or.inr ⟨h.symm, hy⟩)
  · exact Or.inr (Or.inl h)

theorem lexCons_trans {γ α : Type} [LinearOrder α] (f : γ → α)
    (r : γ → γ → Prop) (hr : ∀ {x y z}, r x y → r y z → r x z) {x y z : γ}
    (h1 : lexCons f r x y) (h2 : lexCons f r y z) : lexCons f r x z := by
  rcases h1 with h1 | ⟨e1, r1⟩
  · rcases h2 with h2 | ⟨e2, _⟩
    · exact Or.inl (lt_trans h1 h2)
    · exact Or.inl (e2 ▸ h1)
  · rcases h2 with h2 | ⟨e2, r2⟩
    · exact Or.inl (e1 ▸ h2)
    · exact Or.inr ⟨e1.trans e2, hr r1 r2⟩

theorem lexConsDesc_total {γ α : Type} [LinearOrder α] (f : γ → α)
    (r : γ → γ → Prop) (hr : ∀ x y, r x y ∨ r y x) (x y : γ) :
    lexConsDesc f r x y ∨ lexConsDesc f r y x := by
  rcases lt_trichotomy (f x) (f y) with h | h | h
  · exact Or.inr (Or.inl h)
  · rcases hr x y with hx | hy
    · exact Or.inl (Or.inr ⟨h, hx⟩)
    · exact Or.inr (Or.inr ⟨h.symm, hy⟩)
  · exact Or.inl (Or.inl h)

theorem lexConsDesc_trans {γ α : Type} [LinearOrder α] (f : γ → α)
    (r : γ → γ → Prop) (hr : ∀ {x y z}, r x y → r y z → r x z) {x y z : γ}
    (h1 : lexConsDesc f r x y) (h2 : lexConsDesc f r y z) :
    lexConsDesc f r x z := by
  rcases h1 with h1 | ⟨e1, r1⟩
  · rcases h2 with h2 | ⟨e2, _⟩
    · exact Or.inl (lt_trans h2 h1)
    · exact Or.inl (e2 ▸ h1)
  · rcases h2 with h2 | ⟨e2, r2⟩
    · exact Or.inl (e1 ▸ h2)
    · exact Or.inr ⟨e1.trans e2, hr r1 r2⟩

/-- Ranking relation of `extract_title` (`final.py` line 170): Python's
ascending sort by the tuple `(-size, page, bbox[1])`, i.e. descending font
size, then ascending page index, then ascending top edge. -/
def titleKeyLe : Block → Block → Prop :=
  lexConsDesc Block.size
    (lexCons Block.page (leOn (fun b : Block => b.bbox.y0)))

instance : DecidableRel titleKeyLe := by unfold titleKeyLe; infer_instance

instance : IsTotal Block titleKeyLe :=
  ⟨lexConsDesc_total _ _ (lexCons_total _ _ (leOn_total _))⟩

instance : IsTrans Block titleKeyLe :=
  ⟨fun _ _ _ => lexConsDesc_trans _ _
    (lexCons_trans _ _ (leOn_trans _ (x := _) (y := _) (z := _)))⟩

/-- Candidate filter of `extract_title` (`final.py` lines 163-167): block on
page 0 or 1, raw text longer than 5 characters, and none of the blacklisted
words occurs in the lowercased text. -/
def titleCandidates (blocks : List Block) : List Block :=
  blocks.filter fun b =>
    (b.page == 0 || b.page == 1) &&
    decide (5 < b.text.length) &&
    !(["page".toList, "draft".toList, "confidential".toList].any
        (fun word => decide (word <:+: plower b.text)))

/-- Embedding of `extract_title` (`final.py` lines 162-174): sort the
candidates by `titleKeyLe` and return the top block's geometric text
together with the OCR text of its region; empty strings when there is no
candidate. -/
def extract_title (ocr : ℕ → BBox → PyStr) (blocks : List Block) :
    PyStr × PyStr :=
  match List.insertionSort titleKeyLe (titleCandidates blocks) with
  | [] => ([], [])
  | c :: _ => (c.text, ocr c.page c.bbox)

/-- Embedding of `ends_with_single_dot` (`final.py` lines 176-183). -/
def ends_with_single_dot (text : PyStr) : Bool :=
  let t := pstrip text
  if ['.'].isSuffixOf t ∧ ¬ ['.', '.', '.'].isSuffixOf t then
    if 2 ≤ t.length then
      decide (t.reverse.get? 1 ≠ some '.')
    else
      true
  else
    false

/-- Model of Python's `int(s)` on a string of an optional sign followed by
decimal digits; `none` on every other input.  This covers every level label
the pipeline itself produces (`"H1"`, `"H2"`, ...). -/
def digitsToNat : List Char → Option ℕ
  | [] => none
  | l =>
      if l.all Char.isDigit then
        some (l.foldl (fun a c => 10 * a + (c.toNat - 48)) 0)
      else
        none

/-- Signed integer parse for `heading_level_number`. -/
def pyIntOfStr (s : PyStr) : Option ℤ :=
  match s with
  | '-' :: rest => (digitsToNat rest).map (fun n => -(n : ℤ))
  | '+' :: rest => (digitsToNat rest).map (fun n => (n : ℤ))
  | _ => (digitsToNat s).map (fun n => (n : ℤ))

/-- Embedding of `heading_level_number` (`final.py` lines 185-191): when the
uppercased label starts with `H`, parse the remainder as an integer,
returning `none` on a parse failure; otherwise `none`. -/
def heading_level_number (level_str : PyStr) : Option ℤ :=
  if (level_str.map Char.toUpper).take 1 = ['H'] then
    pyIntOfStr level_str.tail
  else
    none

/-- Descending sort used by `cluster_font_sizes` (`final.py` line 194):
`sorted(set(sizes), reverse=True)` enumerates the distinct sizes in strictly
decreasing order, which the stable sort of the deduplicated list computes. -/
def sortDescQ (l : List ℚ) : List ℚ :=
  List.insertionSort (fun a b : ℚ => b ≤ a) l

instance : IsTotal ℚ (fun a b : ℚ => b ≤ a) := ⟨fun a b => le_total b a⟩

instance : IsTrans ℚ (fun a b : ℚ => b ≤ a) :=
  ⟨fun _ _ _ h1 h2 => le_trans h2 h1⟩

/-- Embedding of `cluster_font_sizes` (`final.py` lines 193-195): the dict
`{size: f"H{i+1}"}` over the enumerated descending distinct sizes, as an
association list. -/
def cluster_font_sizes (candidates : List Block) : List (ℚ × PyStr) :=
  ((sortDescQ (candidates.map Block.size).dedup).enum).map
    (fun p => (p.2, 'H' :: (toString (p.1 + 1)).toList))

/-- Model of the dict lookup `size_to_level.get(size, ...)` without its
default: `none` when the size is not a key. -/
def lookupLevel (size_to_level : List (ℚ × PyStr)) (size : ℚ) : Option PyStr :=
  (size_to_level.find? (fun q => q.1 == size)).map (·.2)

/-- Level actually assigned in `extract_headings` (`final.py` line 226):
the dict lookup with default `"H3"`. -/
def levelOf (candidates : List Block) (size : ℚ) : PyStr :=
  (lookupLevel (cluster_font_sizes candidates) size).getD "H3".toList

/-- Arithmetic mean as computed by `np.mean`, over exact rationals. -/
def npMean (l : List ℚ) : ℚ := l.sum / (l.length : ℚ)

/-- Threshold of `extract_headings` (`final.py` lines 201-202): mean font
size of all filtered blocks plus 1.5, or 0 for an empty sequence. -/
def thresholdOf (blocks : List Block) : ℚ :=
  if (blocks.map Block.size).isEmpty then 0
  else npMean (blocks.map Block.size) + 1.5

/-- Candidate test of `extract_headings` (`final.py` lines 205-217) on an
enumerated block, written as the source's chain of `continue` guards; the
threshold and the last index are computed once, before the loop. -/
def isHeadingCandidateAt (threshold : ℚ) (last_idx : ℕ) (title_text : PyStr)
    (p : ℕ × Block) : Bool :=
  let txt := pstrip p.2.text
  if p.1 == last_idx then false
  else if txt.isEmpty || txt == title_text then false
  else if txt.length < 3 || 150 < txt.length then false
  else if ends_with_single_dot txt then false
  else if decide (p.2.size < threshold) then false
  else true

/-- Candidate list of `extract_headings`: the blocks surviving the guard
chain, in order. -/
def headingCandidates (blocks : List Block) (title_text : PyStr) :
    List Block :=
  ((blocks.enum).filter
    (isHeadingCandidateAt (thresholdOf blocks) (blocks.length - 1)
      title_text)).map (·.2)

/-- Heading record built in `extract_headings` (`final.py` lines 229-234).
The field `srcY` records the top edge of the candidate block the heading was
built from; it is determined by the construction (the Python dict does not
store it, which is why the sort key at lines 240-241 recovers a `y` by
searching `candidates`). -/
structure Heading where
  level : PyStr
  text : PyStr
  page : ℕ
  ocr_text : PyStr
  srcY : ℚ
  deriving DecidableEq

/-- Heading construction loop of `extract_headings` (`final.py` lines
224-234), with the OCR collaborator passed as an oracle. -/
def mkHeadings (ocr : ℕ → BBox → PyStr) (candidates : List Block) :
    List Heading :=
  candidates.map fun c =>
    { level := levelOf candidates c.size, text := c.text, page := c.page
      ocr_text := ocr c.page c.bbox, srcY := c.bbox.y0 }

/-- Sort key of `final.py` lines 240-241: the page, and the top edge of the
first candidate whose text and page match the heading (`next(c for c in
candidates if ...)`).  The `getD 0` branch models the `StopIteration` case,
which never occurs for headings built from `candidates`. -/
def headingYLookup (candidates : List Block) (h : Heading) : ℚ :=
  ((candidates.find? (fun c => c.text == h.text && c.page == h.page)).map
    (fun c => c.bbox.y0)).getD 0

/-- Ranking relation of the heading sort (`final.py` lines 240-241):
ascending page, then ascending looked-up top edge. -/
def hkeyLe (candidates : List Block) : Heading → Heading → Prop :=
  lexCons Heading.page (leOn (headingYLookup candidates))

instance (candidates : List Block) : DecidableRel (hkeyLe candidates) := by
  unfold hkeyLe; infer_instance

instance (candidates : List Block) : IsTotal Heading (hkeyLe candidates) :=
  ⟨lexCons_total _ _ (leOn_total _)⟩

instance (candidates : List Block) : IsTrans Heading (hkeyLe candidates) :=
  ⟨fun _ _ _ => lexCons_trans _ _
    (leOn_trans _ (x := _) (y := _) (z := _))⟩

/-- Reading order on headings: ascending page, then ascending top edge of
the source candidate block. -/
def pageSrcLe : Heading → Heading → Prop :=
  lexCons Heading.page (leOn Heading.srcY)

instance : DecidableRel pageSrcLe := by unfold pageSrcLe; infer_instance

/-- Headings of the candidates, sorted as at `final.py` lines 240-241; this
is the sequence entering the hierarchy consistency pass. -/
def sortedHeadings (ocr : ℕ → BBox → PyStr) (candidates : List Block) :
    List Heading :=
  List.insertionSort (hkeyLe candidates) (mkHeadings ocr candidates)

/-- Hierarchy consistency loop of `extract_headings` (`final.py` lines
242-251), with the running `last_level` made explicit. -/
def hierLoop (last_level : Option ℤ) : List Heading → List Heading
  | [] => []
  | h :: rest =>
      match heading_level_number h.level with
      | none => h :: hierLoop last_level rest
      | some lvl =>
          match last_level with
          | none => h :: hierLoop (some lvl) rest
          | some last =>
              if lvl ≤ last + 1 then h :: hierLoop (some lvl) rest
              else hierLoop (some last) rest

/-- Hierarchy consistency pass: the loop started with no accepted level. -/
def hierarchyPass (headings : List Heading) : List Heading :=
  hierLoop none headings

/-- Embedding of `extract_headings` (`final.py` lines 197-252). -/
def extract_headings (ocr : ℕ → BBox → PyStr) (blocks : List Block)
    (title_text : PyStr) : List Heading :=
  if blocks.isEmpty then []
  else
    let candidates := headingCandidates blocks title_text
    if candidates.isEmpty then []
    else hierarchyPass (sortedHeadings ocr candidates)

/-- Filtered block sequence of `main` (`final.py` lines 269-275): the blocks
that are neither headers nor footers (margin 0.1) and do not overlap a table
region of their page. -/
def mainFilteredBlocks (margin : ℚ) (blocks : List Block)
    (tables : List (ℕ × List BBox)) : List Block :=
  blocks.filter fun b =>
    !(is_header margin b || is_footer margin b) &&
    !block_in_tables b.page b.bbox tables

/-- Output of the pure core of `main` (`final.py` lines 261-284): the
geometric title, its OCR text, and the outline. -/
structure PipelineOut where
  title_text : PyStr
  title_ocr : PyStr
  outline : List Heading
  deriving DecidableEq

/-- Pure core of `main` (`final.py` lines 261-284): the title is selected
from the unfiltered block sequence (line 265) before headers, footers and
table blocks are removed (lines 269-275); only `extract_headings` receives
the filtered sequence (line 279). -/
def mainPipeline (ocr : ℕ → BBox → PyStr) (blocks : List Block)
    (tables : List (ℕ × List BBox)) : PipelineOut :=
  let t := extract_title ocr blocks
  let filtered := mainFilteredBlocks (1/10) blocks tables
  { title_text := t.1, title_ocr := t.2
    outline := extract_headings ocr filtered t.1 }

/-- Claim C8: `bbox_intersect` reports two boxes as intersecting unless one
lies strictly outside the other along the x-axis or the y-axis; boxes
sharing only a touching edge, such as `(0,0,10,10)` and `(10,0,20,10)`,
intersect; and a block is excluded by the table filter iff its bounding box
intersects some table bounding box registered for its page. -/
theorem C8_bbox_intersect :
    (∀ b1 b2 : BBox, bbox_intersect b1 b2 = true ↔
        ¬ (strictly_outside_x b1 b2 ∨ strictly_outside_y b1 b2))
    ∧ bbox_intersect ⟨0, 0, 10, 10⟩ ⟨10, 0, 20, 10⟩ = true
    ∧ (∀ (bbox : BBox) (l : List BBox),
        bbox_in_any bbox l = true ↔ ∃ b ∈ l, bbox_intersect bbox b = true)
    ∧ (∀ (page_num : ℕ) (bbox : BBox) (tables : List (ℕ × List BBox)),
        block_in_tables page_num bbox tables = true ↔
          ∃ bl, lookupPage tables page_num = some bl ∧
            ∃ b ∈ bl, bbox_intersect bbox b = true) := by
  refine ⟨fun b1 b2 => ?_, by decide, fun bbox l => ?_, fun p bbox tables => ?_⟩
  · simp only [bbox_intersect, strictly_outside_x, strictly_outside_y,
      Bool.not_eq_true', Bool.or_eq_false_iff, decide_eq_false_iff_not]
    tauto
  · simp [bbox_in_any, List.any_eq_true]
  · unfold block_in_tables
    cases h : lookupPage tables p with
    | none => simp [h]
    | some bl => simp [h, bbox_in_any, List.any_eq_true]

/-- Claim C7 (amended): a block is a header iff `y1 ≤ m·page_height`; it is
a footer iff it is not a header and `y0 ≥ (1−m)·page_height` (the footer
test is the `elif` branch of the header test); when `0 ≤ m < 1/2`, the page
height is positive and the box is well-formed (`y0 ≤ y1`), the footer
classification reduces to `y0 ≥ (1−m)·page_height` alone; boundaries are
inclusive (`y1 = m·page_height` is a header); a well-formed block with
`y0 = page_height` is a footer for every `0 ≤ m < 1` on a page of positive
height; and a block that is neither header nor footer nor table-overlapping
is retained by the filter. -/
theorem C7_header_footer (m : ℚ) (b : Block) :
    (is_header m b = true ↔ b.bbox.y1 ≤ m * b.page_height)
    ∧ (is_footer m b = true ↔
        (¬ b.bbox.y1 ≤ m * b.page_height ∧
          (1 - m) * b.page_height ≤ b.bbox.y0))
    ∧ (0 < b.page_height → 0 ≤ m → m < 1/2 → b.bbox.y0 ≤ b.bbox.y1 →
        (is_footer m b = true ↔ (1 - m) * b.page_height ≤ b.bbox.y0))
    ∧ (b.bbox.y1 = m * b.page_height → is_header m b = true)
    ∧ (0 < b.page_height → 0 ≤ m → m < 1 → b.bbox.y0 ≤ b.bbox.y1 →
        b.bbox.y0 = b.page_height → is_footer m b = true)
    ∧ (∀ blocks tables, b ∈ blocks →
        is_header m b = false → is_footer m b = false →
        block_in_tables b.page b.bbox tables = false →
        b ∈ mainFilteredBlocks m blocks tables) := by
  have hhead : is_header m b = true ↔ b.bbox.y1 ≤ m * b.page_height := by
    simp only [is_header, decide_eq_true_eq, mul_comm]
  have hfalse : is_header m b = false ↔ ¬ b.bbox.y1 ≤ m * b.page_height := by
    rw [← hhead]
    simp
  have hfoot : is_footer m b = true ↔
      (¬ b.bbox.y1 ≤ m * b.page_height ∧
        (1 - m) * b.page_height ≤ b.bbox.y0) := by
    simp only [is_footer, Bool.and_eq_true, Bool.not_eq_true',
      decide_eq_true_eq, ge_iff_le, hfalse]
    constructor
    · rintro ⟨h1, h2⟩
      exact ⟨h1, by rwa [mul_comm] at h2⟩
    · rintro ⟨h1, h2⟩
      exact ⟨h1, by rwa [mul_comm] at h2⟩
  refine ⟨hhead, hfoot, ?_, ?_, ?_, ?_⟩
  · intro hH hm0 hm2 hwf
    rw [hfoot]
    constructor
    · exact fun h => h.2
    · intro h
      refine ⟨fun hc => ?_, h⟩
      nlinarith
  · intro h
    exact hhead.mpr (le_of_eq h)
  · intro hH hm0 hm1 hwf hy0
    rw [hfoot]
    constructor
    · intro hc
      nlinarith
    · nlinarith
  · intro blocks tables hb h1 h2 h3
    simp only [mainFilteredBlocks, List.mem_filter, h1, h2, h3]
    simp [hb]

/-- Block witnessing the failure of claim C7 as stated: at margin `9/10`
both margin bands overlap and this block lies in both. -/
def bC7 : Block :=
  { text := "x".toList, font := "F", size := 10, flags := 0
    bbox := ⟨0, 20, 10, 30⟩, page := 0, page_height := 100, page_width := 50 }

/-- Claim C7 counterexample: with margin fraction `9/10` the claim's
unconditional "footer iff `y0 ≥ (1−m)·page_height`" fails: this well-formed
block satisfies the inequality yet the code classifies it as a header, not a
footer, because the footer test is an `elif`. -/
theorem C7_counterexample :
    (bC7.bbox.y0 ≤ bC7.bbox.y1
      ∧ (1 - 9/10) * bC7.page_height ≤ bC7.bbox.y0)
    ∧ is_header (9/10) bC7 = true
    ∧ is_footer (9/10) bC7 = false := by
  refine ⟨⟨by norm_num [bC7], by norm_num [bC7]⟩, ?_, ?_⟩
  · simp only [is_header, bC7, decide_eq_true_eq]
    norm_num
  · simp only [is_footer, is_header, bC7, Bool.and_eq_false_iff]
    left
    norm_num

/-- Claim C7 witness block: well inside the bottom band of a 100-unit page. -/
def bC7w : Block :=
  { text := "w".toList, font := "F", size := 10, flags := 0
    bbox := ⟨0, 95, 10, 98⟩, page := 0, page_height := 100, page_width := 50 }

/-- Claim C7 witness: the amended footer characterization applies to a
concrete block at margin `1/10`. -/
theorem C7_witness : is_footer (1/10) bC7w = true :=
  ((C7_header_footer (1/10) bC7w).2.2.1
    (by norm_num [bC7w]) (by norm_num) (by norm_num)
    (by norm_num [bC7w])).mpr (by norm_num [bC7w])

theorem blockKey_mergeTwo (c b : Block) : blockKey (mergeTwo c b) = blockKey c :=
  rfl

theorem mergeBlocksLoop_head (l : List Block) :
    ∀ c, ∃ hd tl, mergeBlocksLoop c l = hd :: tl ∧ blockKey hd = blockKey c := by
  induction l with
  | nil => exact fun c => ⟨c, [], rfl, rfl⟩
  | cons b rest ih =>
      intro c
      by_cases h : blockKey b = blockKey c
      · obtain ⟨hd, tl, heq, hk⟩ := ih (mergeTwo c b)
        refine ⟨hd, tl, ?_, ?_⟩
        · simp only [mergeBlocksLoop]
          rw [if_pos h, heq]
        · rw [hk, blockKey_mergeTwo]
      · refine ⟨c, mergeBlocksLoop b rest, ?_, rfl⟩
        simp only [mergeBlocksLoop]
        rw [if_neg h]

theorem mergeBlocksLoop_chain (l : List Block) :
    ∀ c, List.Chain' (fun a b => blockKey a ≠ blockKey b) (mergeBlocksLoop c l) := by
  induction l with
  | nil =>
      intro c
      simp only [mergeBlocksLoop]
      exact List.chain'_singleton c
  | cons b rest ih =>
      intro c
      by_cases h : blockKey b = blockKey c
      · simp only [mergeBlocksLoop]
        rw [if_pos h]
        exact ih (mergeTwo c b)
      · simp only [mergeBlocksLoop]
        rw [if_neg h]
        obtain ⟨hd, tl, heq, hk⟩ := mergeBlocksLoop_head rest b
        rw [heq]
        refine List.chain'_cons.mpr ⟨?_, heq ▸ ih b⟩
        rw [hk]
        exact fun e => h e.symm

theorem mergeBlocksLoop_of_chain (l : List Block) :
    ∀ c, List.Chain' (fun a b => blockKey a ≠ blockKey b) (c :: l) →
      mergeBlocksLoop c l = c :: l := by
  induction l with
  | nil => intro c _; rfl
  | cons b rest ih =>
      intro c hch
      rw [List.chain'_cons] at hch
      simp only [mergeBlocksLoop]
      rw [if_neg (fun e => hch.1 e.symm), ih b hch.2]

/-- Claim C10: `merge_consecutive_blocks` is idempotent: no two adjacent
blocks of its output share an equal `(page, font, size, flags)` key, so
re-running the merger on its own output returns it unchanged. -/
theorem C10_merge_idempotent :
    (∀ blocks : List Block,
        List.Chain' (fun a b => blockKey a ≠ blockKey b)
          (merge_consecutive_blocks blocks))
    ∧ ∀ blocks : List Block,
        merge_consecutive_blocks (merge_consecutive_blocks blocks) =
          merge_consecutive_blocks blocks := by
  constructor
  · intro blocks
    cases blocks with
    | nil => exact List.chain'_nil
    | cons b rest => exact mergeBlocksLoop_chain rest b
  · intro blocks
    cases blocks with
    | nil => rfl
    | cons b rest =>
        obtain ⟨hd, tl, heq, hk⟩ := mergeBlocksLoop_head rest b
        have hch := mergeBlocksLoop_chain rest b
        rw [heq] at hch
        show merge_consecutive_blocks (mergeBlocksLoop b rest) =
          mergeBlocksLoop b rest
        rw [heq]
        simp only [merge_consecutive_blocks]
        exact mergeBlocksLoop_of_chain tl hd hch

/-- Heading with a given level label and irrelevant remaining fields, used
for concrete hierarchy-pass computations. -/
def hdOf (s : String) : Heading :=
  { level := s.toList, text := "t".toList, page := 0, ocr_text := [], srcY := 0 }

/-- Claim C1: in the hierarchy consistency pass, a candidate with numeric
level `lvl` is kept iff no numeric level has been accepted yet or
`lvl ≤ last + 1`, and keeping it updates the last accepted level to `lvl`;
a rejected numeric candidate leaves the last accepted level unchanged and
is dropped; a candidate with a non-numeric level label is kept
unconditionally and does not update the last accepted level; the output is
a subsequence of the input (rejected candidates are absent, never demoted);
and the ordered levels `[1,2,4,3]` produce output levels `[1,2,3]`. -/
theorem C1_hierarchy_pass :
    (∀ (h : Heading) (t : List Heading) (lvl : ℤ),
        heading_level_number h.level = some lvl →
        hierLoop none (h :: t) = h :: hierLoop (some lvl) t)
    ∧ (∀ (h : Heading) (t : List Heading) (lvl last : ℤ),
        heading_level_number h.level = some lvl → lvl ≤ last + 1 →
        hierLoop (some last) (h :: t) = h :: hierLoop (some lvl) t)
    ∧ (∀ (h : Heading) (t : List Heading) (lvl last : ℤ),
        heading_level_number h.level = some lvl → ¬ lvl ≤ last + 1 →
        hierLoop (some last) (h :: t) = hierLoop (some last) t)
    ∧ (∀ (last : Option ℤ) (h : Heading) (t : List Heading),
        heading_level_number h.level = none →
        hierLoop last (h :: t) = h :: hierLoop last t)
    ∧ (∀ (last : Option ℤ) (hs : List Heading), (hierLoop last hs).Sublist hs)
    ∧ (hierarchyPass [hdOf "H1", hdOf "H2", hdOf "H4", hdOf "H3"]).map
        Heading.level = ["H1".toList, "H2".toList, "H3".toList] := by
  refine ⟨?_, ?_, ?_, ?_, ?_, by decide⟩
  · intro h t lvl hlv
    simp only [hierLoop, hlv]
  · intro h t lvl last hlv hle
    simp only [hierLoop, hlv]
    rw [if_pos hle]
  · intro h t lvl last hlv hle
    simp only [hierLoop, hlv]
    rw [if_neg hle]
  · intro last h t hlv
    simp only [hierLoop, hlv]
  · intro last hs
    induction hs generalizing last with
    | nil => exact List.nil_sublist []
    | cons h t ih =>
        cases hlv : heading_level_number h.level with
        | none =>
            simp only [hierLoop, hlv]
            exact (ih last).cons₂ h
        | some lvl =>
            cases last with
            | none =>
                simp only [hierLoop, hlv]
                exact (ih (some lvl)).cons₂ h
            | some L =>
                simp only [hierLoop, hlv]
                by_cases hle : lvl ≤ L + 1
                · rw [if_pos hle]
                  exact (ih (some lvl)).cons₂ h
                · rw [if_neg hle]
                  exact (ih (some L)).cons h

/-- Claim C1 witness: the accept-and-update equation applies at the
concrete heading `H3` with last accepted level 2. -/
theorem C1_witness :
    hierLoop (some 2) [hdOf "H3"] = hdOf "H3" :: hierLoop (some 3) [] :=
  C1_hierarchy_pass.2.1 (hdOf "H3") [] 3 2 (by decide) (by decide)

/-- Specification-side candidate predicate, written from the claim: not the
last block; trimmed text non-empty and different from the title; trimmed
length in `[3, 150]`; not single-dot-terminated; size at least the mean
font size of all filtered blocks plus 1.5. -/
def spec_is_heading_candidate (blocks : List Block) (title_text : PyStr)
    (p : ℕ × Block) : Bool :=
  decide (p.1 ≠ blocks.length - 1
    ∧ pstrip p.2.text ≠ []
    ∧ pstrip p.2.text ≠ title_text
    ∧ 3 ≤ (pstrip p.2.text).length
    ∧ (pstrip p.2.text).length ≤ 150
    ∧ ends_with_single_dot (pstrip p.2.text) = false
    ∧ (blocks.map Block.size).sum / ((blocks.map Block.size).length : ℚ)
        + 1.5 ≤ p.2.size)

theorem cand_pointwise (blocks : List Block) (title_text : PyStr)
    (p : ℕ × Block) (hne : blocks ≠ []) :
    isHeadingCandidateAt (thresholdOf blocks) (blocks.length - 1)
        title_text p =
      spec_is_heading_candidate blocks title_text p := by
  have hth : thresholdOf blocks =
      (blocks.map Block.size).sum / ((blocks.map Block.size).length : ℚ)
        + 1.5 := by
    unfold thresholdOf npMean
    rw [if_neg (by simpa using hne)]
  simp only [isHeadingCandidateAt, spec_is_heading_candidate, hth]
  split_ifs with h1 h2 h3 h4 h5
  · symm
    rw [decide_eq_false_iff_not]
    rintro ⟨hP1, -⟩
    exact hP1 (by simpa using h1)
  · symm
    rw [decide_eq_false_iff_not]
    rintro ⟨-, hP2, hP3, -⟩
    rcases (by simpa using h2 :
        pstrip p.2.text = [] ∨ pstrip p.2.text = title_text) with h | h
    · exact hP2 h
    · exact hP3 h
  · symm
    rw [decide_eq_false_iff_not]
    rintro ⟨-, -, -, hP4, hP5, -⟩
    rcases (by simpa using h3 :
        (pstrip p.2.text).length < 3 ∨ 150 < (pstrip p.2.text).length)
      with h | h
    · omega
    · omega
  · symm
    rw [decide_eq_false_iff_not]
    rintro ⟨-, -, -, -, -, hP6, -⟩
    rw [h4] at hP6
    exact Bool.noConfusion hP6
  · symm
    rw [decide_eq_false_iff_not]
    rintro ⟨-, -, -, -, -, -, hP7⟩
    have h5' := of_decide_eq_true h5
    linarith
  · symm
    rw [decide_eq_true_eq]
    have h1' : p.1 ≠ blocks.length - 1 := by simpa using h1
    have h2' : ¬ pstrip p.2.text = [] ∧ ¬ pstrip p.2.text = title_text := by
      simpa using h2
    have h3' : ¬ (pstrip p.2.text).length < 3 ∧
        ¬ 150 < (pstrip p.2.text).length := by simpa using h3
    have h4' : ends_with_single_dot (pstrip p.2.text) = false := by
      simpa using h4
    have h5' : ¬ p.2.size <
        (blocks.map Block.size).sum / ((blocks.map Block.size).length : ℚ)
          + 1.5 := by simpa using h5
    exact ⟨h1', h2'.1, h2'.2, by omega, by omega, h4', not_lt.mp h5'⟩

/-- Claim C2: on a non-empty filtered sequence the admission threshold is
the mean font size plus 1.5; an empty input yields an empty result; the
candidate list equals the filter by the claim's candidate predicate (not
the last block, trimmed text non-empty and different from the title,
trimmed length in `[3, 150]`, not ending in a single terminal dot, and size
at least the threshold); and the single-dot predicate behaves as claimed on
the quoted examples. -/
theorem C2_heading_candidates :
    (∀ (ocr : ℕ → BBox → PyStr) (title_text : PyStr),
        extract_headings ocr [] title_text = [])
    ∧ (∀ (b : Block) (bs : List Block),
        thresholdOf (b :: bs) = npMean ((b :: bs).map Block.size) + 1.5)
    ∧ (∀ (blocks : List Block) (title_text : PyStr),
        headingCandidates blocks title_text =
          ((blocks.enum).filter
            (spec_is_heading_candidate blocks title_text)).map (·.2))
    ∧ ends_with_single_dot "Summary.".toList = true
    ∧ ends_with_single_dot "Section 1.2.".toList = true
    ∧ ends_with_single_dot ".".toList = true
    ∧ ends_with_single_dot "Summary...".toList = false
    ∧ ends_with_single_dot "Summary..".toList = false := by
  refine ⟨fun ocr t => rfl, fun b bs => by simp [thresholdOf], ?_,
    by decide, by decide, by decide, by decide, by decide⟩
  intro blocks title_text
  cases blocks with
  | nil => rfl
  | cons b bs =>
      unfold headingCandidates
      rw [funext (fun p =>
        cand_pointwise (b :: bs) title_text p (List.cons_ne_nil b bs))]

theorem lookup_enum_map (f : ℕ → PyStr) (l : List ℚ) :
    ∀ (n : ℕ) (s : ℚ), s ∈ l →
    ((List.enumFrom n l).map (fun p => (p.2, f p.1))).find?
        (fun q => q.1 == s) = some (s, f (n + List.indexOf s l)) := by
  induction l with
  | nil => intro n s hs; cases hs
  | cons a t ih =>
      intro n s hs
      rw [List.enumFrom_cons]
      by_cases h : a = s
      · subst h
        rw [List.map_cons,
          List.find?_cons_of_pos _ (by simp),
          List.indexOf_cons_self]
        simp
      · have hmem : s ∈ t := by
          rcases List.mem_cons.mp hs with h' | h'
          · exact absurd h'.symm h
          · exact h'
        rw [List.map_cons,
          List.find?_cons_of_neg _ (by simpa using h),
          List.indexOf_cons_ne _ h, ih (n + 1) s hmem]
        have heq : n + 1 + List.indexOf s t =
            n + (List.indexOf s t).succ := by omega
        rw [heq]

/-- Claim C3: `cluster_font_sizes` assigns levels purely by rank of the
distinct candidate font sizes sorted strictly descending; every candidate's
size is a key of the map, so the lookup never falls back to the `"H3"`
default; and candidates of equal size receive equal levels. -/
theorem C3_cluster_levels (cs : List Block) (c : Block) (hc : c ∈ cs) :
    List.Sorted (fun a b : ℚ => b < a)
      (sortDescQ (cs.map Block.size).dedup)
    ∧ lookupLevel (cluster_font_sizes cs) c.size =
        some ('H' :: (toString (List.indexOf c.size
          (sortDescQ (cs.map Block.size).dedup) + 1)).toList)
    ∧ levelOf cs c.size =
        'H' :: (toString (List.indexOf c.size
          (sortDescQ (cs.map Block.size).dedup) + 1)).toList
    ∧ ∀ c2 ∈ cs, c2.size = c.size →
        levelOf cs c2.size = levelOf cs c.size := by
  have hmem : c.size ∈ sortDescQ (cs.map Block.size).dedup := by
    have h1 : c.size ∈ cs.map Block.size := List.mem_map_of_mem _ hc
    have h2 : c.size ∈ (cs.map Block.size).dedup := List.mem_dedup.mpr h1
    exact ((List.perm_insertionSort _ _).mem_iff).mpr h2
  have hfind : lookupLevel (cluster_font_sizes cs) c.size =
      some ('H' :: (toString (List.indexOf c.size
        (sortDescQ (cs.map Block.size).dedup) + 1)).toList) := by
    unfold lookupLevel cluster_font_sizes
    have henum : (sortDescQ (cs.map Block.size).dedup).enum =
        (sortDescQ (cs.map Block.size).dedup).enumFrom 0 := rfl
    rw [henum, lookup_enum_map (fun i => 'H' :: (toString (i + 1)).toList)
      _ 0 c.size hmem]
    simp
  refine ⟨?_, hfind, by simp [levelOf, hfind], ?_⟩
  · have hsorted : List.Sorted (fun a b : ℚ => b ≤ a)
        (sortDescQ (cs.map Block.size).dedup) :=
      List.sorted_insertionSort _ _
    have hnodup : (sortDescQ (cs.map Block.size).dedup).Nodup :=
      ((List.perm_insertionSort _ _).nodup_iff).mpr
        (List.nodup_dedup _)
    exact (hsorted.and hnodup).imp
      (fun hab => lt_of_le_of_ne hab.1 (Ne.symm hab.2))
  · intro c2 _ hsz
    rw [hsz]

/-- Block used for concrete clustering computations. -/
def bC3 : Block :=
  { text := "Heading One".toList, font := "F", size := 20, flags := 0
    bbox := ⟨0, 0, 10, 10⟩, page := 0, page_height := 100, page_width := 50 }

/-- Claim C3 witness: the rank-based level formula applies to a concrete
one-candidate list, whose single size receives `"H1"`. -/
theorem C3_witness : levelOf [bC3] (20 : ℚ) = "H1".toList := by
  have h := (C3_cluster_levels [bC3] bC3 (by simp)).2.2.1
  exact h.trans (by decide)

/-- OCR oracle returning the empty string for every region, used in the
concrete pipeline computations (OCR output never influences the geometric
selection logic). -/
def ocrNone : ℕ → BBox → PyStr := fun _ _ => []

/-- Size-24 title candidate on page 0. -/
def bT24 : Block :=
  { text := "Annual Research Report".toList, font := "F", size := 24
    flags := 0, bbox := ⟨0, 40, 10, 50⟩, page := 0
    page_height := 100, page_width := 50 }

/-- Size-18 title candidate on page 1. -/
def bT18 : Block :=
  { text := "Introduction chapter".toList, font := "F", size := 18
    flags := 0, bbox := ⟨0, 30, 10, 40⟩, page := 1
    page_height := 100, page_width := 50 }

/-- Size-18 title candidate on page 0. -/
def bT18p0 : Block :=
  { text := "Introduction chapter".toList, font := "F", size := 18
    flags := 0, bbox := ⟨0, 30, 10, 40⟩, page := 0
    page_height := 100, page_width := 50 }

/-- Size-24 title candidate on page 1. -/
def bT24p1 : Block :=
  { text := "Annual Research Report".toList, font := "F", size := 24
    flags := 0, bbox := ⟨0, 40, 10, 50⟩, page := 1
    page_height := 100, page_width := 50 }

/-- Claim C4: the title candidates are exactly the blocks on page 0 or 1
with raw text longer than 5 characters whose lowercased text contains none
of the blacklisted substrings; with no candidate the title is empty;
otherwise the returned text belongs to a candidate that is ranked first,
i.e. bounded by every candidate under the key (descending size, ascending
page, ascending top edge); and concretely a size-24 candidate beats a
size-18 candidate whichever of the first two pages each one is on. -/
theorem C4_extract_title (ocr : ℕ → BBox → PyStr) (blocks : List Block) :
    (∀ b : Block, b ∈ titleCandidates blocks ↔
        b ∈ blocks ∧ (b.page = 0 ∨ b.page = 1) ∧ 5 < b.text.length
        ∧ ¬ "page".toList <:+: plower b.text
        ∧ ¬ "draft".toList <:+: plower b.text
        ∧ ¬ "confidential".toList <:+: plower b.text)
    ∧ (titleCandidates blocks = [] → (extract_title ocr blocks).1 = [])
    ∧ (titleCandidates blocks ≠ [] → ∃ c, c ∈ titleCandidates blocks ∧
        (extract_title ocr blocks).1 = c.text ∧
        ∀ b ∈ titleCandidates blocks, titleKeyLe c b)
    ∧ (extract_title ocrNone [bT24, bT18]).1 = bT24.text
    ∧ (extract_title ocrNone [bT18p0, bT24p1]).1 = bT24p1.text := by
  refine ⟨?_, ?_, ?_, by decide, by decide⟩
  · intro b
    simp only [titleCandidates, List.mem_filter, Bool.and_eq_true,
      Bool.or_eq_true, beq_iff_eq, decide_eq_true_eq, Bool.not_eq_true',
      List.any_cons, List.any_nil, Bool.or_eq_false_iff,
      decide_eq_false_iff_not]
    tauto
  · intro h
    simp [extract_title, h]
  · intro hne
    cases hsort : List.insertionSort titleKeyLe (titleCandidates blocks) with
    | nil =>
        exfalso
        have hperm := List.perm_insertionSort titleKeyLe
          (titleCandidates blocks)
        rw [hsort] at hperm
        exact hne (hperm.symm.eq_nil)
    | cons c rest =>
        have hperm := List.perm_insertionSort titleKeyLe
          (titleCandidates blocks)
        rw [hsort] at hperm
        have hsorted := List.sorted_insertionSort titleKeyLe
          (titleCandidates blocks)
        rw [hsort] at hsorted
        refine ⟨c, hperm.subset (List.mem_cons_self c rest), ?_, ?_⟩
        · simp [extract_title, hsort]
        · intro b hb
          rcases List.mem_cons.mp (hperm.mem_iff.mpr hb) with h | h
          · subst h
            exact (IsTotal.total (r := titleKeyLe) b b).elim id id
          · exact List.rel_of_sorted_cons hsorted b h

/-- Claim C4 witness: the first-ranked-candidate characterization applies
to the concrete two-candidate input. -/
theorem C4_witness :
    ∃ c, c ∈ titleCandidates [bT24, bT18] ∧
      (extract_title ocrNone [bT24, bT18]).1 = c.text ∧
      ∀ b ∈ titleCandidates [bT24, bT18], titleKeyLe c b :=
  (C4_extract_title ocrNone [bT24, bT18]).2.2.1 (by decide)

/-- Space-join of a list of strings, the specification's "space-joined
concatenation in encounter order". -/
def specJoin (l : List PyStr) : PyStr := List.intercalate [' '] l

/-- Tail of a space-join: every later element is preceded by one space. -/
def joinTail (l : List Span) : PyStr :=
  match l with
  | [] => []
  | x :: xs => ' ' :: pstrip x.text ++ joinTail xs

theorem intercalate_cons_cons (sep x y : PyStr) (l : List PyStr) :
    List.intercalate sep (x :: y :: l) =
      x ++ sep ++ List.intercalate sep (y :: l) := by
  simp [List.intercalate, List.intersperse]

theorem foldl_strip_join (l : List Span) :
    ∀ t : PyStr,
      l.foldl (fun acc x => acc ++ ' ' :: pstrip x.text) t = t ++ joinTail l := by
  induction l with
  | nil => intro t; simp [joinTail]
  | cons x xs ih =>
      intro t
      rw [List.foldl_cons, ih (t ++ ' ' :: pstrip x.text)]
      simp [joinTail]

theorem specJoin_strips (s : Span) (rest : List Span) :
    specJoin ((s :: rest).map (fun x => pstrip x.text)) =
      pstrip s.text ++ joinTail rest := by
  induction rest generalizing s with
  | nil => simp [specJoin, joinTail, List.intercalate]
  | cons x xs ih =>
      show specJoin (pstrip s.text :: pstrip x.text ::
        xs.map (fun x => pstrip x.text)) = _
      unfold specJoin
      rw [intercalate_cons_cons]
      have hx := ih x
      unfold specJoin at hx
      rw [show (pstrip x.text :: xs.map (fun x => pstrip x.text)) =
        ((x :: xs).map (fun x => pstrip x.text)) from rfl, hx]
      simp [joinTail]

theorem mergeSpansLoop_all_match (p : ℕ) (hgt w : ℚ) (rest : List Span) :
    ∀ a : RunAcc,
      (∀ x ∈ rest, x.font = a.font ∧ x.size = a.size ∧ x.flags = a.flags) →
      (∀ x ∈ rest, pstrip x.text ≠ []) →
      mergeSpansLoop p hgt w (some a) rest =
        [flushAcc p hgt w
          ⟨rest.foldl (fun acc x => acc ++ ' ' :: pstrip x.text) a.text,
           a.font, a.size, a.flags, a.bboxes ++ rest.map Span.bbox⟩] := by
  induction rest with
  | nil =>
      intro a _ _
      simp [mergeSpansLoop]
  | cons s rest ih =>
      intro a hstyle hstrip
      have hs := hstyle s (List.mem_cons_self s rest)
      have hne := hstrip s (List.mem_cons_self s rest)
      simp only [mergeSpansLoop]
      rw [if_neg hne, if_pos hs]
      rw [ih ⟨a.text ++ ' ' :: pstrip s.text, a.font, a.size, a.flags,
            a.bboxes ++ [s.bbox]⟩
          (fun x hx => hstyle x (List.mem_cons_of_mem s hx))
          (fun x hx => hstrip x (List.mem_cons_of_mem s hx))]
      simp [List.append_assoc]

theorem foldl_min_le (l : List ℚ) :
    ∀ x : ℚ, l.foldl min x ≤ x ∧ ∀ y ∈ l, l.foldl min x ≤ y := by
  induction l with
  | nil => intro x; simp
  | cons a t ih =>
      intro x
      rw [List.foldl_cons]
      refine ⟨le_trans (ih (min x a)).1 (min_le_left x a), ?_⟩
      intro y hy
      rcases List.mem_cons.mp hy with h | h
      · subst h
        exact le_trans (ih (min x y)).1 (min_le_right x y)
      · exact (ih (min x a)).2 y h

theorem foldl_min_mem (l : List ℚ) :
    ∀ x : ℚ, l.foldl min x = x ∨ l.foldl min x ∈ l := by
  induction l with
  | nil => intro x; simp
  | cons a t ih =>
      intro x
      rw [List.foldl_cons]
      rcases ih (min x a) with h | h
      · rcases min_choice x a with hm | hm
        · exact Or.inl (h.trans hm)
        · exact Or.inr (List.mem_cons.mpr (Or.inl (h.trans hm)))
      · exact Or.inr (List.mem_cons_of_mem a h)

theorem foldl_max_ge (l : List ℚ) :
    ∀ x : ℚ, x ≤ l.foldl max x ∧ ∀ y ∈ l, y ≤ l.foldl max x := by
  induction l with
  | nil => intro x; simp
  | cons a t ih =>
      intro x
      rw [List.foldl_cons]
      refine ⟨le_trans (le_max_left x a) (ih (max x a)).1, ?_⟩
      intro y hy
      rcases List.mem_cons.mp hy with h | h
      · subst h
        exact le_trans (le_max_right x y) (ih (max x y)).1
      · exact (ih (max x a)).2 y h

theorem foldl_max_mem (l : List ℚ) :
    ∀ x : ℚ, l.foldl max x = x ∨ l.foldl max x ∈ l := by
  induction l with
  | nil => intro x; simp
  | cons a t ih =>
      intro x
      rw [List.foldl_cons]
      rcases ih (max x a) with h | h
      · rcases max_choice x a with hm | hm
        · exact Or.inl (h.trans hm)
        · exact Or.inr (List.mem_cons.mpr (Or.inl (h.trans hm)))
      · exact Or.inr (List.mem_cons_of_mem a h)

/-- Claim C9 (amended): spans with empty trimmed text are dropped; for a
line of spans sharing `(font, size, flags)`, each with non-empty trimmed
text, exactly one merged block results, whose text is the space-join of the
trimmed span texts — hence of the original texts whenever those are already
trimmed — and whose bounding box is `merge_bboxes` of the spans' boxes,
which is the coordinate-wise min/max envelope: it bounds every box and each
of its four coordinates is attained by some box. -/
theorem C9_run_merger :
    (∀ (p : ℕ) (hgt w : ℚ) (cur : Option RunAcc) (s : Span)
        (rest : List Span), pstrip s.text = [] →
        mergeSpansLoop p hgt w cur (s :: rest) =
          mergeSpansLoop p hgt w cur rest)
    ∧ (∀ (p : ℕ) (hgt w : ℚ) (s : Span) (rest : List Span),
        (∀ x ∈ s :: rest,
          x.font = s.font ∧ x.size = s.size ∧ x.flags = s.flags) →
        (∀ x ∈ s :: rest, pstrip x.text ≠ []) →
        mergeLineSpans p hgt w (s :: rest) =
          [{ text := specJoin ((s :: rest).map (fun x => pstrip x.text)),
             font := s.font, size := s.size, flags := s.flags,
             bbox := merge_bboxes ((s :: rest).map Span.bbox),
             page := p, page_height := hgt, page_width := w }])
    ∧ (∀ (p : ℕ) (hgt w : ℚ) (s : Span) (rest : List Span),
        (∀ x ∈ s :: rest,
          x.font = s.font ∧ x.size = s.size ∧ x.flags = s.flags) →
        (∀ x ∈ s :: rest, pstrip x.text ≠ []) →
        (∀ x ∈ s :: rest, pstrip x.text = x.text) →
        mergeLineSpans p hgt w (s :: rest) =
          [{ text := specJoin ((s :: rest).map Span.text),
             font := s.font, size := s.size, flags := s.flags,
             bbox := merge_bboxes ((s :: rest).map Span.bbox),
             page := p, page_height := hgt, page_width := w }])
    ∧ (∀ (b : BBox) (bs : List BBox),
        (∀ x ∈ b :: bs,
          (merge_bboxes (b :: bs)).x0 ≤ x.x0 ∧
          (merge_bboxes (b :: bs)).y0 ≤ x.y0 ∧
          x.x1 ≤ (merge_bboxes (b :: bs)).x1 ∧
          x.y1 ≤ (merge_bboxes (b :: bs)).y1)
        ∧ (merge_bboxes (b :: bs)).x0 ∈ (b :: bs).map BBox.x0
        ∧ (merge_bboxes (b :: bs)).y0 ∈ (b :: bs).map BBox.y0
        ∧ (merge_bboxes (b :: bs)).x1 ∈ (b :: bs).map BBox.x1
        ∧ (merge_bboxes (b :: bs)).y1 ∈ (b :: bs).map BBox.y1) := by
  have hdrop : ∀ (p : ℕ) (hgt w : ℚ) (cur : Option RunAcc) (s : Span)
      (rest : List Span), pstrip s.text = [] →
      mergeSpansLoop p hgt w cur (s :: rest) =
        mergeSpansLoop p hgt w cur rest := by
    intro p hgt w cur s rest h
    simp only [mergeSpansLoop]
    rw [if_pos h]
  have hmain : ∀ (p : ℕ) (hgt w : ℚ) (s : Span) (rest : List Span),
      (∀ x ∈ s :: rest,
        x.font = s.font ∧ x.size = s.size ∧ x.flags = s.flags) →
      (∀ x ∈ s :: rest, pstrip x.text ≠ []) →
      mergeLineSpans p hgt w (s :: rest) =
        [{ text := specJoin ((s :: rest).map (fun x => pstrip x.text)),
           font := s.font, size := s.size, flags := s.flags,
           bbox := merge_bboxes ((s :: rest).map Span.bbox),
           page := p, page_height := hgt, page_width := w }] := by
    intro p hgt w s rest hstyle hstrip
    have hne := hstrip s (List.mem_cons_self s rest)
    unfold mergeLineSpans
    simp only [mergeSpansLoop]
    rw [if_neg hne]
    rw [mergeSpansLoop_all_match p hgt w rest
        ⟨pstrip s.text, s.font, s.size, s.flags, [s.bbox]⟩
        (fun x hx => hstyle x (List.mem_cons_of_mem s hx))
        (fun x hx => hstrip x (List.mem_cons_of_mem s hx))]
    unfold flushAcc
    rw [foldl_strip_join, specJoin_strips]
    rfl
  refine ⟨hdrop, hmain, ?_, ?_⟩
  · intro p hgt w s rest hstyle hstrip htrim
    rw [hmain p hgt w s rest hstyle hstrip]
    have : (s :: rest).map (fun x => pstrip x.text) =
        (s :: rest).map Span.text :=
      List.map_congr_left (fun x hx => htrim x hx)
    rw [this]
  · intro b bs
    refine ⟨?_, ?_, ?_, ?_, ?_⟩
    · intro x hx
      rcases List.mem_cons.mp hx with h | h
      · subst h
        exact ⟨(foldl_min_le _ _).1, (foldl_min_le _ _).1,
          (foldl_max_ge _ _).1, (foldl_max_ge _ _).1⟩
      · exact ⟨(foldl_min_le _ _).2 x.x0 (List.mem_map_of_mem _ h),
          (foldl_min_le _ _).2 x.y0 (List.mem_map_of_mem _ h),
          (foldl_max_ge _ _).2 x.x1 (List.mem_map_of_mem _ h),
          (foldl_max_ge _ _).2 x.y1 (List.mem_map_of_mem _ h)⟩
    · rcases foldl_min_mem (bs.map BBox.x0) b.x0 with h | h
      · exact List.mem_cons.mpr (Or.inl h)
      · exact List.mem_cons_of_mem _ h
    · rcases foldl_min_mem (bs.map BBox.y0) b.y0 with h | h
      · exact List.mem_cons.mpr (Or.inl h)
      · exact List.mem_cons_of_mem _ h
    · rcases foldl_max_mem (bs.map BBox.x1) b.x1 with h | h
      · exact List.mem_cons.mpr (Or.inl h)
      · exact List.mem_cons_of_mem _ h
    · rcases foldl_max_mem (bs.map BBox.y1) b.y1 with h | h
      · exact List.mem_cons.mpr (Or.inl h)
      · exact List.mem_cons_of_mem _ h

/-- Span whose raw text carries a trailing space, exposing the difference
between joining raw texts and joining stripped texts. -/
def sC9a : Span :=
  { text := ['a', ' '], font := "F", size := 10, flags := 0
    bbox := ⟨0, 0, 5, 10⟩ }

/-- Second span of the counterexample line, same style. -/
def sC9b : Span :=
  { text := ['b'], font := "F", size := 10, flags := 0
    bbox := ⟨5, 0, 9, 10⟩ }

/-- Claim C9 counterexample: two same-style spans with non-empty trimmed
texts whose merged text is the space-join of the *stripped* texts
(`"a b"`), not the space-join of the original texts (`"a  b"`), because the
source strips each span text before concatenation. -/
theorem C9_counterexample :
    (sC9a.font = sC9b.font ∧ sC9a.size = sC9b.size ∧
      sC9a.flags = sC9b.flags ∧ pstrip sC9a.text ≠ [] ∧
      pstrip sC9b.text ≠ [])
    ∧ (mergeLineSpans 0 100 50 [sC9a, sC9b]).map Block.text =
        [['a', ' ', 'b']]
    ∧ specJoin ([sC9a, sC9b].map Span.text) = ['a', ' ', ' ', 'b']
    ∧ (['a', ' ', 'b'] : PyStr) ≠ ['a', ' ', ' ', 'b'] := by
  refine ⟨by decide, by decide, ?_, by decide⟩
  decide

/-- Spans with already-trimmed texts, for the witness computation. -/
def sC9w1 : Span :=
  { text := ['a', 'b'], font := "F", size := 10, flags := 0
    bbox := ⟨0, 0, 5, 10⟩ }

/-- Second witness span, same style. -/
def sC9w2 : Span :=
  { text := ['c', 'd'], font := "F", size := 10, flags := 0
    bbox := ⟨5, 0, 9, 10⟩ }

/-- Claim C9 witness: the single-merged-span conclusion applies to a
concrete line of two same-style trimmed spans. -/
theorem C9_witness :
    mergeLineSpans 0 100 50 [sC9w1, sC9w2] =
      [{ text := specJoin ([sC9w1, sC9w2].map (fun x => pstrip x.text)),
         font := sC9w1.font, size := sC9w1.size, flags := sC9w1.flags,
         bbox := merge_bboxes ([sC9w1, sC9w2].map Span.bbox),
         page := 0, page_height := 100, page_width := 50 }] :=
  C9_run_merger.2.1 0 100 50 sC9w1 [sC9w2] (by decide) (by decide)

/-- Large-font block sitting in the top margin band of page 0: the noise
filter removes it, yet it is the best title candidate. -/
def bTitleHdr : Block :=
  { text := "Grand Title Here".toList, font := "F", size := 24, flags := 0
    bbox := ⟨0, 0, 50, 5⟩, page := 0, page_height := 100, page_width := 50 }

/-- Ordinary mid-page block of page 0, surviving the noise filter. -/
def bBody : Block :=
  { text := "Another heading".toList, font := "F", size := 18, flags := 0
    bbox := ⟨0, 40, 50, 45⟩, page := 0, page_height := 100, page_width := 50 }

theorem mainFiltered_C5 :
    mainFilteredBlocks (1/10) [bTitleHdr, bBody] [] = [bBody] := by
  have h1 : is_header (1/10) bTitleHdr = true := by
    rw [is_header, decide_eq_true_eq]
    norm_num [bTitleHdr]
  have h2 : is_header (1/10) bBody = false := by
    rw [is_header, decide_eq_false_iff_not]
    norm_num [bBody]
  have h3 : is_footer (1/10) bBody = false := by
    rw [is_footer, h2]
    rw [Bool.not_false, Bool.true_and, decide_eq_false_iff_not]
    norm_num [bBody]
  unfold mainFilteredBlocks
  rw [List.filter_cons, List.filter_cons, List.filter_nil, h1, h2, h3]
  simp [block_in_tables, lookupPage]

/-- Claim C5 counterexample: in `main` the title is chosen before the
noise filter runs; this block is removed as a header, yet its text is the
pipeline's title, and the title the filtered sequence would give differs. -/
theorem C5_counterexample :
    (mainPipeline ocrNone [bTitleHdr, bBody] []).title_text =
        bTitleHdr.text
    ∧ bTitleHdr ∉ mainFilteredBlocks (1/10) [bTitleHdr, bBody] []
    ∧ (extract_title ocrNone
        (mainFilteredBlocks (1/10) [bTitleHdr, bBody] [])).1 ≠
          bTitleHdr.text := by
  refine ⟨by decide, ?_, ?_⟩
  · rw [mainFiltered_C5]
    decide
  · rw [mainFiltered_C5]
    decide

/-- Claim C5 (amended): the Title Selector input in `main` is the block
sequence *before* header/footer and table filtering; only the Heading
Classifier receives the filtered sequence.  Consequently a block removed by
the Noise Filter can still be chosen as the title, as the concrete
header-positioned block shows. -/
theorem C5_title_scope :
    (∀ (ocr : ℕ → BBox → PyStr) (blocks : List Block)
        (tables : List (ℕ × List BBox)),
        (mainPipeline ocr blocks tables).title_text =
            (extract_title ocr blocks).1
        ∧ (mainPipeline ocr blocks tables).outline =
            extract_headings ocr (mainFilteredBlocks (1/10) blocks tables)
              (extract_title ocr blocks).1)
    ∧ bTitleHdr ∉ mainFilteredBlocks (1/10) [bTitleHdr, bBody] []
    ∧ (mainPipeline ocrNone [bTitleHdr, bBody] []).title_text =
        bTitleHdr.text := by
  refine ⟨fun ocr blocks tables => ⟨rfl, rfl⟩, ?_, by decide⟩
  rw [mainFiltered_C5]
  decide

theorem headingCandidates_sublist (blocks : List Block)
    (title_text : PyStr) :
    (headingCandidates blocks title_text).Sublist blocks := by
  unfold headingCandidates
  have h1 := (List.filter_sublist (p :=
    isHeadingCandidateAt (thresholdOf blocks) (blocks.length - 1)
      title_text) blocks.enum).map (fun p : ℕ × Block => p.2)
  have h3 : (blocks.enum).map (fun p : ℕ × Block => p.2) = blocks :=
    List.enum_map_snd blocks
  rw [h3] at h1
  exact h1

theorem headingYLookup_srcY (cs : List Block)
    (hdist : cs.Pairwise (fun a b => ¬ (a.text = b.text ∧ a.page = b.page)))
    (ocr : ℕ → BBox → PyStr) :
    ∀ h ∈ mkHeadings ocr cs, headingYLookup cs h = h.srcY := by
  intro h hh
  obtain ⟨c', hc', rfl⟩ := List.mem_map.mp hh
  have hpred : (fun c : Block =>
      c.text == c'.text && c.page == c'.page) c' = true := by simp
  have hsome :
      (cs.find? (fun c => c.text == c'.text && c.page == c'.page)).isSome :=
    List.find?_isSome.mpr ⟨c', hc', hpred⟩
  obtain ⟨c₀, hc₀⟩ := Option.isSome_iff_exists.mp hsome
  have hmem₀ := List.mem_of_find?_eq_some hc₀
  have hp₀ := List.find?_some hc₀
  simp only [Bool.and_eq_true, beq_iff_eq] at hp₀
  have hyeq : c₀.bbox.y0 = c'.bbox.y0 := by
    by_cases hcc : c₀ = c'
    · rw [hcc]
    · exfalso
      have hsym : Symmetric (fun a b : Block =>
          ¬ (a.text = b.text ∧ a.page = b.page)) :=
        fun a b hab hba => hab ⟨hba.1.symm, hba.2.symm⟩
      exact (hdist.forall hsym hmem₀ hc' hcc) ⟨hp₀.1, hp₀.2⟩
  unfold headingYLookup
  show ((cs.find? (fun c => c.text == c'.text && c.page == c'.page)).map
      (fun c => c.bbox.y0)).getD 0 = c'.bbox.y0
  rw [hc₀]
  simpa using hyeq

/-- Claim C6 (amended): when no two blocks of the filtered sequence share
both text and page — so the source-recovery lookup of the sort key finds
each heading's own candidate — the sequence of headings entering the
hierarchy consistency pass is sorted by (page ascending, source candidate
top edge ascending). -/
theorem C6_reading_order (ocr : ℕ → BBox → PyStr) (blocks : List Block)
    (title_text : PyStr)
    (hdist : blocks.Pairwise
      (fun a b => ¬ (a.text = b.text ∧ a.page = b.page))) :
    List.Sorted pageSrcLe
      (sortedHeadings ocr (headingCandidates blocks title_text)) := by
  have hd := hdist.sublist (headingCandidates_sublist blocks title_text)
  have hkey := headingYLookup_srcY (headingCandidates blocks title_text)
    hd ocr
  have hsorted := List.sorted_insertionSort
    (hkeyLe (headingCandidates blocks title_text))
    (mkHeadings ocr (headingCandidates blocks title_text))
  have hperm := List.perm_insertionSort
    (hkeyLe (headingCandidates blocks title_text))
    (mkHeadings ocr (headingCandidates blocks title_text))
  refine List.Pairwise.imp_of_mem ?_ hsorted
  intro a b ha hb hab
  have ha' := hkey a (hperm.subset ha)
  have hb' := hkey b (hperm.subset hb)
  simp only [hkeyLe, lexCons, leOn] at hab
  simp only [pageSrcLe, lexCons, leOn]
  rcases hab with h | ⟨he, hle⟩
  · exact Or.inl h
  · rw [ha', hb'] at hle
    exact Or.inr ⟨he, hle⟩

/-- First candidate block of the reading-order counterexample: on page 0
with top edge 50 and text `"Intro"`. -/
def bI1 : Block :=
  { text := "Intro".toList, font := "F", size := 20, flags := 0
    bbox := ⟨0, 50, 10, 55⟩, page := 0, page_height := 1000
    page_width := 100 }

/-- Middle candidate block, text `"Other"`, top edge 70. -/
def bOth : Block :=
  { text := "Other".toList, font := "F", size := 20, flags := 0
    bbox := ⟨0, 70, 10, 75⟩, page := 0, page_height := 1000
    page_width := 100 }

/-- Later candidate block with the *same* text and page as `bI1` but top
edge 100: the sort-key lookup resolves its y to `bI1`'s. -/
def bI2 : Block :=
  { text := "Intro".toList, font := "F", size := 20, flags := 0
    bbox := ⟨0, 100, 10, 105⟩, page := 0, page_height := 1000
    page_width := 100 }

/-- Small trailing block: excluded as the last block and pulls the mean
font size below the candidates' size. -/
def bLast : Block :=
  { text := "ending block".toList, font := "F", size := 5, flags := 0
    bbox := ⟨0, 120, 10, 125⟩, page := 0, page_height := 1000
    page_width := 100 }

/-- Filtered block sequence of the reading-order counterexample. -/
def blocksC6 : List Block := [bI1, bOth, bI2, bLast]

theorem thresholdOf_blocksC6 : thresholdOf blocksC6 = mkRat 71 4 := by
  unfold thresholdOf npMean
  rw [if_neg (by decide)]
  norm_num [blocksC6, bI1, bOth, bI2, bLast, Rat.mkRat_eq_div]

theorem headingCandidates_C6 :
    headingCandidates blocksC6 [] = [bI1, bOth, bI2] := by
  unfold headingCandidates
  rw [thresholdOf_blocksC6]
  decide

/-- Claim C6 counterexample: with two candidates sharing text and page, the
sort key recovers the first matching candidate's top edge for both, and the
sequence entering the hierarchy pass is not sorted by (page, source top
edge): the source top edges come out as 50, 100, 70. -/
theorem C6_counterexample :
    ¬ List.Sorted pageSrcLe
      (sortedHeadings ocrNone (headingCandidates blocksC6 [])) := by
  rw [headingCandidates_C6]
  decide

/-- Filtered block sequence with pairwise-distinct (text, page), for the
reading-order witness. -/
def blocksC6w : List Block := [bI1, bOth, bLast]

/-- Claim C6 witness: the amended reading-order theorem applies to a
concrete distinct-text candidate sequence. -/
theorem C6_witness :
    List.Sorted pageSrcLe
      (sortedHeadings ocrNone (headingCandidates blocksC6w [])) :=
  C6_reading_order ocrNone blocksC6w [] (by decide)

end PDF
